import Mathlib

/-!
Verification of the collection/analysis pipeline of a code-review assistant.

The program collects source files from a remote repository tree, a pull
request's changed-file list, or a local directory (`main.py`,
`github_client.py`), submits each file's content to an inference service and
parses the free-form response into a structured per-file result
(`llm_analyzer.py`), and aggregates the results into a session summary.

The embedding below is shallow: machine I/O (HTTP calls, the filesystem walk,
wall-clock timing, progress bars) is abstracted into explicit inputs (trees,
lists, content oracles, a response oracle); everything the repository itself
computes — filtering, sorting, truncation, JSON extraction, result
construction, aggregation — is translated directly from the source.
Python numbers are modelled as rationals; `round(x, 1)` is modelled as
round-half-to-even on the first decimal digit, which is Python's documented
rounding mode (binary-float representation artifacts are outside the model).
-/

set_option autoImplicit false

namespace CodeReview

/-- Python `round(x, 1)` uses round-half-to-even on the tenths digit.
`roundHalfEven q` is the nearest integer to `q`, ties going to the even one. -/
def roundHalfEven (q : ℚ) : ℤ :=
  let f := q.floor
  let r := q - (f : ℚ)
  if r < 1/2 then f
  else if 1/2 < r then f + 1
  else if f % 2 = 0 then f else f + 1

/-- Model of Python `round(x, 1)`: round to the nearest multiple of `1/10`,
ties to the even tenths digit. -/
def pyRound1 (q : ℚ) : ℚ := (roundHalfEven (q * 10) : ℚ) / 10

/-- A JSON value, as produced by Python's `json.loads`.  Numbers are modelled
as rationals (`NaN`/`Infinity` extensions are outside the model). -/
inductive JsonVal where
  | null : JsonVal
  | bool : Bool → JsonVal
  | num : ℚ → JsonVal
  | str : String → JsonVal
  | arr : List JsonVal → JsonVal
  | obj : List (String × JsonVal) → JsonVal

/-- A Python dict with string keys, in insertion order (the shape of every
analysis-result record in `llm_analyzer.py`). -/
abbrev Dict := List (String × JsonVal)

/-- Python `d.get(k)` / `d[k]`: the value stored at key `k`, if any. -/
def dictGet : Dict → String → Option JsonVal
  | [], _ => none
  | (k', v') :: rest, k => if k' = k then some v' else dictGet rest k

/-- Python `d[k] = v`: replace the value at an existing key in place, else
append the new pair (dict insertion order). -/
def dictSet : Dict → String → JsonVal → Dict
  | [], k, v => [(k, v)]
  | (k', v') :: rest, k, v =>
    if k' = k then (k, v) :: rest else (k', v') :: dictSet rest k v

/-- JSON whitespace accepted by `json.loads` between tokens. -/
def isJsonWs (c : Char) : Bool :=
  c = ' ' ∨ c = '\t' ∨ c = '\n' ∨ c = '\r'

/-- Drop leading JSON whitespace. -/
def skipWs : List Char → List Char
  | [] => []
  | c :: cs => if isJsonWs c then skipWs cs else c :: cs

/-- Longest digit run at the head of the input, and the rest. -/
def takeDigits : List Char → List Char × List Char
  | [] => ([], [])
  | c :: cs =>
    if c.isDigit then
      let (ds, r) := takeDigits cs
      (c :: ds, r)
    else ([], c :: cs)

/-- Value of a digit run, most significant first. -/
def digitsToNat (ds : List Char) : Nat :=
  ds.foldl (fun n c => 10 * n + (c.toNat - '0'.toNat)) 0

/-- Value of one hex digit, for `\uXXXX` string escapes. -/
def hexVal (c : Char) : Option Nat :=
  if '0' ≤ c ∧ c ≤ '9' then some (c.toNat - '0'.toNat)
  else if 'a' ≤ c ∧ c ≤ 'f' then some (c.toNat - 'a'.toNat + 10)
  else if 'A' ≤ c ∧ c ≤ 'F' then some (c.toNat - 'A'.toNat + 10)
  else none

/-- Parse the optional exponent of a JSON number and finish the number. -/
def parseExp (mag : ℚ) (neg : Bool) : List Char → Option (ℚ × List Char)
  | 'e' :: t => parseExpAfterMark mag neg t
  | 'E' :: t => parseExpAfterMark mag neg t
  | s => some ((if neg then -mag else mag), s)
where
  parseExpAfterMark (mag : ℚ) (neg : Bool) (t : List Char) :
      Option (ℚ × List Char) :=
    let (negExp, t1) :=
      match t with
      | '+' :: u => (false, u)
      | '-' :: u => (true, u)
      | u => (false, u)
    let (es, t2) := takeDigits t1
    if es.isEmpty then none
    else
      let e := digitsToNat es
      let m := if negExp then mag / 10 ^ e else mag * 10 ^ e
      some ((if neg then -m else m), t2)

/-- Parse a JSON number (`-?int frac? exp?`, leading zeros rejected). -/
def parseNumber (s : List Char) : Option (ℚ × List Char) :=
  let (neg, s1) :=
    match s with
    | '-' :: t => (true, t)
    | _ => (false, s)
  match s1 with
  | [] => none
  | c :: _ =>
    if ¬ c.isDigit then none
    else
      let (ds, s2) := takeDigits s1
      if 1 < ds.length ∧ ds.head? = some '0' then none
      else
        let ip : ℚ := (digitsToNat ds : ℚ)
        match s2 with
        | '.' :: t =>
          let (fs, s3) := takeDigits t
          if fs.isEmpty then none
          else parseExp (ip + (digitsToNat fs : ℚ) / (10 : ℚ) ^ fs.length) neg s3
        | _ => parseExp ip neg s2

/-- Parse the body of a JSON string (after the opening quote), handling the
standard escapes; strict mode rejects raw control characters. -/
def parseStringBody : Nat → List Char → List Char → Option (List Char × List Char)
  | 0, _, _ => none
  | _ + 1, [], _ => none
  | fuel + 1, c :: rest, acc =>
    if c = '"' then some (acc.reverse, rest)
    else if c = '\\' then
      match rest with
      | [] => none
      | e :: rest2 =>
        if e = '"' then parseStringBody fuel rest2 ('"' :: acc)
        else if e = '\\' then parseStringBody fuel rest2 ('\\' :: acc)
        else if e = '/' then parseStringBody fuel rest2 ('/' :: acc)
        else if e = 'b' then parseStringBody fuel rest2 ('\x08' :: acc)
        else if e = 'f' then parseStringBody fuel rest2 ('\x0c' :: acc)
        else if e = 'n' then parseStringBody fuel rest2 ('\n' :: acc)
        else if e = 'r' then parseStringBody fuel rest2 ('\r' :: acc)
        else if e = 't' then parseStringBody fuel rest2 ('\t' :: acc)
        else if e = 'u' then
          match rest2 with
          | h1 :: h2 :: h3 :: h4 :: rest3 =>
            match hexVal h1, hexVal h2, hexVal h3, hexVal h4 with
            | some a, some b, some c', some d =>
              let n := ((a * 16 + b) * 16 + c') * 16 + d
              if h : n.isValidChar then
                parseStringBody fuel rest3 (Char.ofNatAux n h :: acc)
              else none
            | _, _, _, _ => none
          | _ => none
        else none
    else if c.toNat < 32 then none
    else parseStringBody fuel rest (c :: acc)

/-- The tail of the literal `true`, after the leading `t`. -/
def parseLitTrue : List Char → Option (JsonVal × List Char)
  | 'r' :: 'u' :: 'e' :: r1 => some (.bool true, r1)
  | _ => none

/-- The tail of the literal `false`, after the leading `f`. -/
def parseLitFalse : List Char → Option (JsonVal × List Char)
  | 'a' :: 'l' :: 's' :: 'e' :: r1 => some (.bool false, r1)
  | _ => none

/-- The tail of the literal `null`, after the leading `n`. -/
def parseLitNull : List Char → Option (JsonVal × List Char)
  | 'u' :: 'l' :: 'l' :: r1 => some (.null, r1)
  | _ => none

mutual

/-- Parse one JSON value at the head of the input (no leading whitespace). -/
def parseVal : Nat → List Char → Option (JsonVal × List Char)
  | 0, _ => none
  | _ + 1, [] => none
  | fuel + 1, c :: rest =>
    if c = '{' then
      match skipWs rest with
      | '}' :: r2 => some (.obj [], r2)
      | r1 => parseMembers fuel r1 []
    else if c = '[' then
      match skipWs rest with
      | ']' :: r2 => some (.arr [], r2)
      | r1 => parseItems fuel r1 []
    else if c = '"' then
      match parseStringBody (fuel + 1) rest [] with
      | some (cs, r1) => some (.str (String.mk cs), r1)
      | none => none
    else if c = 't' then parseLitTrue rest
    else if c = 'f' then parseLitFalse rest
    else if c = 'n' then parseLitNull rest
    else
      match parseNumber (c :: rest) with
      | some (q, r1) => some (.num q, r1)
      | none => none

/-- Parse the comma-separated items of a (non-empty) JSON array. -/
def parseItems : Nat → List Char → List JsonVal → Option (JsonVal × List Char)
  | 0, _, _ => none
  | fuel + 1, s, acc =>
    match parseVal fuel s with
    | none => none
    | some (v, r1) =>
      match skipWs r1 with
      | ',' :: r2 => parseItems fuel (skipWs r2) (v :: acc)
      | ']' :: r2 => some (.arr (v :: acc).reverse, r2)
      | _ => none

/-- Parse the `"key": value` members of a (non-empty) JSON object.  Duplicate
keys are collapsed last-wins, as Python dict construction does. -/
def parseMembers : Nat → List Char → Dict → Option (JsonVal × List Char)
  | 0, _, _ => none
  | _ + 1, [], _ => none
  | fuel + 1, c :: rest, acc =>
    if c = '"' then
      match parseStringBody (fuel + 1) rest [] with
      | none => none
      | some (k, r1) =>
        match skipWs r1 with
        | ':' :: r2 =>
          match parseVal fuel (skipWs r2) with
          | none => none
          | some (v, r3) =>
            match skipWs r3 with
            | ',' :: r4 => parseMembers fuel (skipWs r4) (dictSet acc (String.mk k) v)
            | '}' :: r4 => some (.obj (dictSet acc (String.mk k) v), r4)
            | _ => none
        | _ => none
    else none

end

/-- Model of Python `json.loads`: strict parse of one JSON document with
optional surrounding whitespace; anything else fails. -/
def loads (s : List Char) : Option JsonVal :=
  match parseVal (4 * s.length + 8) (skipWs s) with
  | some (v, rest) => if (skipWs rest).isEmpty then some v else none
  | none => none

/-- Python `s.find(c)`: index of the first occurrence of `c`, if any
(`-1` in Python is modelled as `none`). -/
def strFind (c : Char) : List Char → Option Nat
  | [] => none
  | x :: xs => if x = c then some 0 else (strFind c xs).map (· + 1)

/-- Python `s.rfind(c)`: index of the last occurrence of `c`, if any. -/
def strRFind (c : Char) (s : List Char) : Option Nat :=
  (strFind c s.reverse).map (fun k => s.length - 1 - k)

/-- Python `s.endswith(suf)`. -/
def pyEndsWith (s suf : String) : Bool :=
  suf.data.isSuffixOf s.data

namespace Config

/-- `config.py`: default supported extension allow-list
(`SUPPORTED_EXTENSIONS`, overridable by environment; the default is used). -/
def SUPPORTED_EXTENSIONS : List String :=
  [".py", ".js", ".ts", ".java", ".cpp", ".c", ".go", ".rb", ".php", ".html", ".css"]

/-- `config.py`: default `MAX_FILE_SIZE` (50000 bytes). -/
def MAX_FILE_SIZE : Nat := 50000

/-- `config.py`: default `MAX_FILES_PER_ANALYSIS` (20 files). -/
def MAX_FILES_PER_ANALYSIS : Nat := 20

end Config

/-- True when the file name ends with one of the configured extensions
(`any(name.endswith(ext) for ext in Config.SUPPORTED_EXTENSIONS)`). -/
def allowedExt (name : String) : Bool :=
  Config.SUPPORTED_EXTENSIONS.any (fun ext => pyEndsWith name ext)

namespace LLMAnalyzer

/-- `LLMAnalyzer._parse_json_response`: take the substring from the first
`{` to the last `}` (inclusive) and strictly JSON-decode it; `none` models
both the `ValueError` (no braces) and a `json.loads` decode failure, which
the caller handles identically. -/
def parse_json_response (response : List Char) : Option JsonVal :=
  match strFind '{' response, strRFind '}' response with
  | some s, some e => loads ((response.drop s).take (e + 1 - s))
  | _, _ => none

/-- `LLMAnalyzer._create_fallback_result`: the record returned when the
response text could not be parsed; `raw_response` keeps the first 500
characters of the original text. -/
def create_fallback_result (response : List Char) : Dict :=
  [("overall_score", .num 5),
   ("issues", .arr []),
   ("improvements", .arr [.str "LLM 응답 파싱 실패"]),
   ("positive_points", .arr []),
   ("raw_response", .str (String.mk (response.take 500)))]

/-- `LLMAnalyzer._create_empty_result`: the record returned when the
inference call produced no usable response at all. -/
def create_empty_result : Dict :=
  [("overall_score", .num 0),
   ("issues", .arr []),
   ("improvements", .arr [.str "분석 실패"]),
   ("positive_points", .arr []),
   ("error", .str "LLM 분석 실패")]

/-- `LLMAnalyzer.analyze_code`, with the inference call abstracted into its
outcome: `none` models a transport failure (`_call_ollama` returned `None`).
Python's `if response:` is falsy for both `None` and the empty string, so an
empty response also takes the empty-result path.  A successful parse is used
directly as the result record; the parse can only succeed with a JSON object
(the decoded substring starts at a `{`, see `parse_json_response_obj`), so
the non-object arm below is unreachable. -/
def analyze_code (response : Option (List Char)) : Dict :=
  match response with
  | none => create_empty_result
  | some r =>
    if r.isEmpty then create_empty_result
    else
      match parse_json_response r with
      | some (JsonVal.obj m) => m
      | some _ => []
      | none => create_fallback_result r

/-- A file record handed to `analyze_multiple_files`: the `path` and
`content` keys of the dicts built by the three collection modes. -/
structure FileInfo where
  path : String
  content : List Char
  deriving DecidableEq

/-- The value Python adds to `total_score` for one result record:
`result.get('overall_score', 5.0)` followed by `total_score += …`.
Adding a string/list/dict/None raises `TypeError` (modelled as `none`,
which aborts the whole batch); booleans are numeric in Python. -/
def pyScoreKV (d : Dict) : Option ℚ :=
  match dictGet d "overall_score" with
  | some (JsonVal.num q) => some q
  | some (JsonVal.bool b) => some (if b then 1 else 0)
  | some _ => none
  | none => some 5

/-- The same quantity as a total function, on records where the addition
does not raise: the stored score when present, else the default `5.0`. -/
def scoreOrDefault (d : Dict) : ℚ :=
  match dictGet d "overall_score" with
  | some (JsonVal.num q) => q
  | some (JsonVal.bool b) => if b then 1 else 0
  | _ => 5

/-- Python `len(r.get('issues', []))`: `0` when the key is absent, the
length when the value is sized, `TypeError` (`none`) otherwise. -/
def issuesLen (d : Dict) : Option Nat :=
  match dictGet d "issues" with
  | none => some 0
  | some (JsonVal.arr l) => some l.length
  | some (JsonVal.str s) => some s.length
  | some (JsonVal.obj m) => some m.length
  | some _ => none

/-- `sum(len(r.get('issues', [])) for r in results)`, propagating a
`TypeError` as `none`. -/
def totalIssues : List Dict → Option Nat
  | [] => some 0
  | d :: ds =>
    match issuesLen d, totalIssues ds with
    | some n, some m => some (n + m)
    | _, _ => none

/-- The per-file loop of `analyze_multiple_files`: records with falsy
(empty) content are skipped entirely; each analyzed record gets
`result['file_path'] = path` and contributes `get('overall_score', 5.0)`
to the running total.  `respond` abstracts the inference service's reply
for one file.  Returns the result list and the accumulated total score,
or `none` when the score addition raises. -/
def runBatch (respond : FileInfo → Option (List Char)) :
    List FileInfo → Option (List Dict × ℚ)
  | [] => some ([], 0)
  | fi :: rest =>
    if fi.content.isEmpty then runBatch respond rest
    else
      let r := dictSet (analyze_code (respond fi)) "file_path" (.str fi.path)
      match pyScoreKV r with
      | none => none
      | some q =>
        match runBatch respond rest with
        | none => none
        | some (rs, t) => some (r :: rs, q + t)

/-- The session-level aggregate of one batch (`summary` in
`analyze_multiple_files`); the wall-clock fields (`analysis_time`,
`analysis_timestamp`) are I/O and not modelled. -/
structure Summary where
  total_files : Nat
  average_score : ℚ
  total_issues : Nat

/-- The value returned by `analyze_multiple_files`: summary plus the
ordered per-file results. -/
structure FinalReport where
  summary : Summary
  files : List Dict

/-- `LLMAnalyzer.analyze_multiple_files`: truncate to
`MAX_FILES_PER_ANALYSIS`, run the per-file loop, and aggregate.
`avg_score = total_score / len(results) if results else 0`, reported as
`round(avg_score, 1)`; `none` models an uncaught `TypeError` escaping the
function (which aborts the run). -/
def analyze_multiple_files (respond : FileInfo → Option (List Char))
    (files : List FileInfo) : Option FinalReport :=
  match runBatch respond (files.take Config.MAX_FILES_PER_ANALYSIS) with
  | none => none
  | some (rs, t) =>
    match totalIssues rs with
    | none => none
    | some issues =>
      some { summary :=
               { total_files := rs.length,
                 average_score :=
                   pyRound1 (if rs.isEmpty then 0 else t / (rs.length : ℚ)),
                 total_issues := issues },
             files := rs }

end LLMAnalyzer

namespace GitHubClient

/-- One entry of a repository's directory tree as served by the contents
API: a file (name, path, size) or a directory with its own listing. -/
inductive TreeItem where
  | file : String → String → Nat → TreeItem
  | dir : List TreeItem → TreeItem

/-- A file descriptor collected from the remote tree (the dict
`{name, path, size, download_url}` built by `get_all_files`; the download
URL is not used afterwards and not modelled). -/
structure RepoFile where
  name : String
  path : String
  size : Nat
  deriving DecidableEq

mutual

/-- The body of `get_all_files`' recursive walk for one entry: keep files
whose name ends with a supported extension, recurse into directories. -/
def filesOfItem : TreeItem → List RepoFile
  | .file name path size =>
    if allowedExt name then [⟨name, path, size⟩] else []
  | .dir contents => filesOfTree contents

/-- The walk over one directory listing, in listing order. -/
def filesOfTree : List TreeItem → List RepoFile
  | [] => []
  | item :: rest => filesOfItem item ++ filesOfTree rest

end

/-- `GitHubClient.get_all_files`: depth-first traversal keeping only
supported extensions (no size filtering at this stage). -/
def get_all_files (tree : List TreeItem) : List RepoFile :=
  filesOfTree tree

end GitHubClient

namespace CodeReviewAssistant

open GitHubClient

/-- Ordering used by `valid_files.sort(key=lambda x: x['size'])`. -/
def bySize (a b : RepoFile) : Prop := a.size ≤ b.size

instance : DecidableRel bySize := fun a b => Nat.decLe a.size b.size

instance : IsTotal RepoFile bySize := ⟨fun a b => Nat.le_total a.size b.size⟩

instance : IsTrans RepoFile bySize := ⟨fun _ _ _ => Nat.le_trans⟩

/-- The filter-and-sort part of `CodeReviewAssistant.analyze_repository`'s
descriptor phase: keep descriptors with `size <= MAX_FILE_SIZE`, then sort
ascending by size.  Python `list.sort` is a stable sort; any stable sort
by the same key yields the same list, here insertion sort. -/
def sorted_valid_files (tree : List TreeItem) : List RepoFile :=
  ((get_all_files tree).filter
    (fun f => f.size ≤ Config.MAX_FILE_SIZE)).insertionSort bySize

/-- The truncation step of `analyze_repository`'s descriptor phase:
truncate to the caller-supplied `max_files` when that is truthy (Python
`if max_files:` is false for `None` and `0`), else to
`MAX_FILES_PER_ANALYSIS`. -/
def collect_repository (tree : List TreeItem) (max_files : Option Nat) :
    List RepoFile :=
  match max_files with
  | some m =>
    if m = 0 then (sorted_valid_files tree).take Config.MAX_FILES_PER_ANALYSIS
    else (sorted_valid_files tree).take m
  | none => (sorted_valid_files tree).take Config.MAX_FILES_PER_ANALYSIS

/-- A `{path, content, size}` record built by `analyze_repository`'s
download loop. -/
structure RemoteRecord where
  path : String
  content : List Char
  size : Nat
  deriving DecidableEq

/-- The download loop of `analyze_repository`: fetch each collected
descriptor's content (`contentOf` abstracts `get_file_content`, `none`
being a failed fetch or decode) and keep the truthy (non-empty) ones. -/
def repository_files_with_content (tree : List TreeItem)
    (max_files : Option Nat) (contentOf : String → Option (List Char)) :
    List RemoteRecord :=
  (collect_repository tree max_files).filterMap (fun f =>
    match contentOf f.path with
    | some c => if c.isEmpty then none else some ⟨f.path, c, f.size⟩
    | none => none)

/-- One changed-file entry of a pull request, as returned by the PR files
API (`status`, `filename`, change counts). -/
structure PRChangedFile where
  status : String
  filename : String
  changes : Nat
  additions : Nat
  deletions : Nat
  deriving DecidableEq

/-- A `{path, content, changes, additions, deletions}` record built by
`analyze_pull_request` (note: no size field and no size check). -/
structure PRRecord where
  path : String
  content : List Char
  changes : Nat
  additions : Nat
  deletions : Nat
  deriving DecidableEq

/-- The per-entry loop of `CodeReviewAssistant.analyze_pull_request`:
skip entries with status `"removed"`, skip unsupported extensions, fetch
content, keep records with truthy content.  No sorting, no size check,
and no truncation happen here. -/
def pr_files_with_content (prFiles : List PRChangedFile)
    (contentOf : String → Option (List Char)) : List PRRecord :=
  prFiles.filterMap (fun f =>
    if f.status = "removed" then none
    else if ¬ allowedExt f.filename then none
    else
      match contentOf f.filename with
      | some c =>
        if c.isEmpty then none
        else some ⟨f.filename, c, f.changes, f.additions, f.deletions⟩
      | none => none)

/-- One candidate file produced by the local `os.walk` (after the excluded
directories are pruned), in walk order: relative path, base name, on-disk
size. -/
structure LocalFile where
  relpath : String
  name : String
  size : Nat
  deriving DecidableEq

/-- The collection phase of `CodeReviewAssistant.analyze_local_project`:
keep walk entries with a supported extension and size within
`MAX_FILE_SIZE`, then truncate to `MAX_FILES_PER_ANALYSIS` — in walk
order, without any sorting. -/
def collect_local (walk : List LocalFile) : List LocalFile :=
  (walk.filter (fun f =>
    allowedExt f.name && decide (f.size ≤ Config.MAX_FILE_SIZE))).take
    Config.MAX_FILES_PER_ANALYSIS

/-- A `{path, content, size}` record built by `analyze_local_project`'s
read loop. -/
structure LocalRecord where
  path : String
  content : List Char
  size : Nat
  deriving DecidableEq

/-- The read loop of `analyze_local_project`: read each collected file
(`contentOf` abstracts the tolerant-decode `open(...).read()`, `none`
being a read failure, which is skipped); unlike the remote/PR loops the
content is appended without a truthiness check, so an empty file yields a
record with empty content. -/
def local_files_with_content (walk : List LocalFile)
    (contentOf : String → Option (List Char)) : List LocalRecord :=
  (collect_local walk).filterMap (fun f =>
    (contentOf f.relpath).map (fun c => ⟨f.relpath, c, f.size⟩))


end CodeReviewAssistant

/-! ### Helper lemmas -/

theorem dictGet_dictSet_same (d : Dict) (k : String) (v : JsonVal) :
    dictGet (dictSet d k v) k = some v := by
  induction d with
  | nil => simp [dictGet, dictSet]
  | cons p rest ih =>
    by_cases h : p.1 = k
    · simp [dictSet, h, dictGet]
    · simp [dictSet, h, dictGet, ih]

theorem dictGet_dictSet_ne (d : Dict) (k k' : String) (v : JsonVal)
    (h : k' ≠ k) : dictGet (dictSet d k v) k' = dictGet d k' := by
  have h1 : ¬ (k = k') := fun hk => h hk.symm
  induction d with
  | nil => simp [dictGet, dictSet, h1]
  | cons p rest ih =>
    obtain ⟨pk, pv⟩ := p
    by_cases hp : pk = k
    · subst hp
      simp [dictSet, dictGet, h1]
    · simp [dictSet, hp, dictGet, ih]

theorem strFind_drop {c : Char} {s : List Char} {i : Nat}
    (h : strFind c s = some i) : ∃ t, s.drop i = c :: t := by
  induction s generalizing i with
  | nil => simp [strFind] at h
  | cons x xs ih =>
    by_cases hx : x = c
    · simp [strFind, hx] at h
      exact ⟨xs, by simp [← h, hx]⟩
    · simp [strFind, hx] at h
      obtain ⟨j, hj, rfl⟩ := h
      obtain ⟨t, ht⟩ := ih hj
      exact ⟨t, by simpa using ht⟩

theorem parseMembers_obj {fuel : Nat} {s : List Char} {acc : Dict}
    {v : JsonVal} {r : List Char}
    (h : parseMembers fuel s acc = some (v, r)) : ∃ m, v = JsonVal.obj m := by
  induction fuel generalizing s acc v r with
  | zero => rw [parseMembers] at h; simp at h
  | succ fuel ih =>
    rcases s with _ | ⟨c, rest⟩
    · rw [parseMembers] at h; simp at h
    · rw [parseMembers] at h
      repeat' split at h
      all_goals first
        | exact ih h
        | (cases h; exact ⟨_, rfl⟩)
        | simp_all

theorem parseVal_brace_obj {fuel : Nat} {t r : List Char} {v : JsonVal}
    (h : parseVal fuel ('{' :: t) = some (v, r)) : ∃ m, v = JsonVal.obj m := by
  match fuel with
  | 0 => rw [parseVal] at h; simp at h
  | fuel + 1 =>
    rw [parseVal] at h
    repeat' split at h
    all_goals first
      | exact parseMembers_obj h
      | (cases h; exact ⟨_, rfl⟩)
      | simp_all

theorem loads_obj {t : List Char} {v : JsonVal}
    (h : loads ('{' :: t) = some v) : ∃ m, v = JsonVal.obj m := by
  have hskip : skipWs ('{' :: t) = '{' :: t := by simp [skipWs, isJsonWs]
  rw [loads, hskip] at h
  split at h
  · next val rest hp =>
    split at h
    · cases h
      exact parseVal_brace_obj hp
    · simp at h
  · simp at h

theorem loads_nil : loads [] = none := by
  simp [loads, skipWs, parseVal]

theorem parse_json_response_obj {r : List Char} {v : JsonVal}
    (h : LLMAnalyzer.parse_json_response r = some v) :
    ∃ m, v = JsonVal.obj m := by
  rw [LLMAnalyzer.parse_json_response] at h
  split at h
  · next i j hi hj =>
    obtain ⟨t, ht⟩ := strFind_drop hi
    rw [ht] at h
    match hn : j + 1 - i with
    | 0 => rw [hn] at h; simp [loads_nil] at h
    | n + 1 =>
      rw [hn] at h
      simp only [List.take_succ_cons] at h
      exact loads_obj h
  · exact absurd h (by simp)

namespace LLMAnalyzer

theorem pyScoreKV_eq {d : Dict} {q : ℚ} (h : pyScoreKV d = some q) :
    scoreOrDefault d = q := by
  rw [pyScoreKV] at h
  rw [scoreOrDefault]
  split at h <;> simp_all [scoreOrDefault]

/-- The per-file loop's output, characterized: one result per input record
with truthy content, in order, each being the analysis of that record with
`file_path` set; the accumulated total is the sum of the per-record
`get('overall_score', 5.0)` contributions. -/
theorem runBatch_eq {respond : FileInfo → Option (List Char)}
    {fs : List FileInfo} {rs : List Dict} {t : ℚ}
    (h : runBatch respond fs = some (rs, t)) :
    rs = (fs.filter (fun fi => !fi.content.isEmpty)).map
      (fun fi => dictSet (analyze_code (respond fi)) "file_path" (.str fi.path))
    ∧ t = (rs.map scoreOrDefault).sum := by
  induction fs generalizing rs t with
  | nil =>
    rw [runBatch] at h
    cases h
    simp
  | cons fi rest ih =>
    simp only [runBatch] at h
    split at h
    · next hemp =>
      obtain ⟨h1, h2⟩ := ih h
      simp [List.filter_cons, hemp, h1, h2]
    · next hemp =>
      split at h
      · simp at h
      · next q hq =>
        split at h
        · simp at h
        · next rs' t' hrest =>
          cases h
          obtain ⟨h1, h2⟩ := ih hrest
          refine ⟨by simp [List.filter_cons, hemp, h1], ?_⟩
          simp [h2, pyScoreKV_eq hq]

/-- `analyze_multiple_files`, characterized in terms of the loop. -/
theorem analyze_multiple_files_eq {respond : FileInfo → Option (List Char)}
    {files : List FileInfo} {report : FinalReport}
    (h : analyze_multiple_files respond files = some report) :
    ∃ t issues,
      runBatch respond (files.take Config.MAX_FILES_PER_ANALYSIS)
        = some (report.files, t)
      ∧ totalIssues report.files = some issues
      ∧ report.summary.total_files = report.files.length
      ∧ report.summary.average_score
          = pyRound1 (if report.files.isEmpty then 0
                      else t / (report.files.length : ℚ))
      ∧ report.summary.total_issues = issues := by
  rw [analyze_multiple_files] at h
  split at h
  · simp at h
  · next rs t hrb =>
    split at h
    · simp at h
    · next issues hti =>
      cases h
      exact ⟨t, issues, hrb, hti, rfl, rfl, rfl⟩

end LLMAnalyzer

theorem pyRound1_zero : pyRound1 0 = 0 := by with_unfolding_all rfl

/-! ### C4 — ResponseParser extraction contract -/

/-- The response text of the spec's parser round-trip example. -/
def c4_text : List Char :=
  "here is the result: \x7b\"overall_score\": 7, \"issues\": [], \"improvements\": [], \"positive_points\": []\x7d thanks".toList

/-- C4: on any response text, the parser fails when `{` or `}` is absent,
and otherwise strictly JSON-decodes exactly the substring from the first
`{` to the last `}` (inclusive); on the spec's example it returns exactly
the embedded object, ignoring the surrounding prose. -/
theorem c4_parser_contract :
    (∀ r : List Char, strFind '{' r = none ∨ strRFind '}' r = none →
      LLMAnalyzer.parse_json_response r = none)
    ∧ (∀ r : List Char, ∀ i j : Nat,
        strFind '{' r = some i → strRFind '}' r = some j →
        LLMAnalyzer.parse_json_response r = loads ((r.drop i).take (j + 1 - i)))
    ∧ LLMAnalyzer.parse_json_response c4_text =
        some (JsonVal.obj
          [("overall_score", .num 7), ("issues", .arr []),
           ("improvements", .arr []), ("positive_points", .arr [])]) := by
  refine ⟨?_, ?_, ?_⟩
  · intro r h
    cases hx : strFind '{' r <;> cases hy : strRFind '}' r <;>
      simp_all [LLMAnalyzer.parse_json_response]
  · intro r i j hi hj
    simp [LLMAnalyzer.parse_json_response, hi, hj]
  · with_unfolding_all rfl

/-- C4, instantiated: a brace-free text parses to `none`; a text with
braces parses to the strict decode of the brace-delimited slice. -/
theorem c4_parser_contract_witness :
    LLMAnalyzer.parse_json_response "no braces at all".toList = none
    ∧ LLMAnalyzer.parse_json_response "a{1}b".toList
        = loads (("a{1}b".toList.drop 1).take (3 + 1 - 1)) :=
  ⟨c4_parser_contract.1 _ (Or.inl rfl),
   c4_parser_contract.2.1 _ 1 3 rfl rfl⟩

/-! ### C5 — parser fallback record -/

/-- C5 counterexample: the empty response text is a text on which JSON
extraction fails (it has no brace at all), yet the produced record is the
failure record — score `0`, no `raw_response` — not the described
fallback with score `5.0`, because `if response:` is falsy for `""`. -/
theorem c5_counterexample :
    LLMAnalyzer.analyze_code (some []) = LLMAnalyzer.create_empty_result
    ∧ dictGet (LLMAnalyzer.analyze_code (some [])) "overall_score"
        = some (.num 0)
    ∧ dictGet (LLMAnalyzer.analyze_code (some [])) "raw_response" = none
    ∧ some (JsonVal.num 0) ≠ some (JsonVal.num 5) := by
  refine ⟨rfl, rfl, rfl, ?_⟩
  simp only [ne_eq, Option.some.injEq]
  intro h
  have := JsonVal.num.inj h
  norm_num at this

/-- C5 (amended): for every non-empty response text on which extraction or
decoding fails, the result is the fallback record — score `5.0`, no
issues, exactly one improvement note, no positive points, and
`raw_response` the first 500 characters (the whole text when shorter). -/
theorem c5_fallback_policy (r : List Char) (hne : r ≠ [])
    (hp : LLMAnalyzer.parse_json_response r = none) :
    LLMAnalyzer.analyze_code (some r) = LLMAnalyzer.create_fallback_result r
    ∧ dictGet (LLMAnalyzer.create_fallback_result r) "overall_score"
        = some (.num 5)
    ∧ dictGet (LLMAnalyzer.create_fallback_result r) "issues" = some (.arr [])
    ∧ dictGet (LLMAnalyzer.create_fallback_result r) "improvements"
        = some (.arr [.str "LLM 응답 파싱 실패"])
    ∧ dictGet (LLMAnalyzer.create_fallback_result r) "positive_points"
        = some (.arr [])
    ∧ dictGet (LLMAnalyzer.create_fallback_result r) "raw_response"
        = some (.str (String.mk (r.take 500)))
    ∧ (r.length ≤ 500 → r.take 500 = r) := by
  have h0 : r.isEmpty = false := by
    cases r with
    | nil => exact absurd rfl hne
    | cons c cs => rfl
  refine ⟨?_, rfl, rfl, rfl, rfl, rfl, fun hl => List.take_of_length_le hl⟩
  rw [LLMAnalyzer.analyze_code, h0, hp]
  rfl

/-- C5 (amended), instantiated at a brace-free non-empty text. -/
theorem c5_fallback_policy_witness :
    LLMAnalyzer.analyze_code (some "no json here".toList)
      = LLMAnalyzer.create_fallback_result "no json here".toList :=
  (c5_fallback_policy "no json here".toList (by simp) rfl).1

/-! ### C3 — failure-state record and batch continuation -/

/-- C3 counterexample: the failure record's `improvements` list is not
empty — it carries the single note `"분석 실패"`. -/
theorem c3_counterexample :
    LLMAnalyzer.analyze_code none = LLMAnalyzer.create_empty_result
    ∧ dictGet (LLMAnalyzer.analyze_code none) "improvements"
        = some (.arr [.str "분석 실패"])
    ∧ some (JsonVal.arr [JsonVal.str "분석 실패"]) ≠ some (JsonVal.arr []) := by
  refine ⟨rfl, rfl, ?_⟩
  simp

/-- C3 (amended): a failed inference call yields the failure record —
score `0`, empty issues, one improvement note `"분석 실패"`, empty positive
points, `error` set — and the batch loop continues with the remaining
files, prepending that record (with `file_path` set) to their results. -/
theorem c3_failure_result :
    dictGet LLMAnalyzer.create_empty_result "overall_score" = some (.num 0)
    ∧ dictGet LLMAnalyzer.create_empty_result "issues" = some (.arr [])
    ∧ dictGet LLMAnalyzer.create_empty_result "improvements"
        = some (.arr [.str "분석 실패"])
    ∧ dictGet LLMAnalyzer.create_empty_result "positive_points" = some (.arr [])
    ∧ dictGet LLMAnalyzer.create_empty_result "error"
        = some (.str "LLM 분석 실패")
    ∧ LLMAnalyzer.analyze_code none = LLMAnalyzer.create_empty_result
    ∧ (∀ (respond : LLMAnalyzer.FileInfo → Option (List Char))
        (fi : LLMAnalyzer.FileInfo) (rest : List LLMAnalyzer.FileInfo)
        (rs : List Dict) (t : ℚ),
        fi.content ≠ [] → respond fi = none →
        LLMAnalyzer.runBatch respond rest = some (rs, t) →
        LLMAnalyzer.runBatch respond (fi :: rest)
          = some (dictSet LLMAnalyzer.create_empty_result "file_path"
                    (.str fi.path) :: rs, 0 + t)) := by
  refine ⟨rfl, rfl, rfl, rfl, rfl, rfl, ?_⟩
  intro respond fi rest rs t hne hresp hrest
  have h0 : fi.content.isEmpty = false := by
    cases hc : fi.content with
    | nil => exact absurd hc hne
    | cons c cs => rfl
  rw [LLMAnalyzer.runBatch, h0, hresp]
  simp only [LLMAnalyzer.analyze_code]
  rw [show LLMAnalyzer.pyScoreKV
        (dictSet LLMAnalyzer.create_empty_result "file_path" (.str fi.path))
      = some 0 from rfl, hrest]
  rfl

/-- C3 (amended), instantiated: a one-file batch whose only call fails
still yields one (failure) result. -/
theorem c3_failure_result_witness :
    LLMAnalyzer.runBatch (fun _ => none)
      [(⟨"a.py", "x = 1".toList⟩ : LLMAnalyzer.FileInfo)]
      = some ([dictSet LLMAnalyzer.create_empty_result "file_path"
                (.str "a.py")], 0 + 0) :=
  c3_failure_result.2.2.2.2.2.2 (fun _ => none) ⟨"a.py", "x = 1".toList⟩
    [] [] 0 (by simp) rfl rfl

/-! ### C9 — result-state exclusivity -/

/-- The decoded mapping used by the C9 counterexample. -/
def c9_text : List Char := "\x7b\"error\": 1\x7d".toList

/-- C9 counterexample: a successfully decoded response may itself carry an
`error` key; the resulting record then has `error` present although the
service responded and the parse succeeded (it is not a failure record: no
failure note, and not a fallback: no `raw_response`). -/
theorem c9_counterexample :
    LLMAnalyzer.parse_json_response c9_text = some (.obj [("error", .num 1)])
    ∧ LLMAnalyzer.analyze_code (some c9_text) = [("error", .num 1)]
    ∧ dictGet (LLMAnalyzer.analyze_code (some c9_text)) "error" = some (.num 1)
    ∧ dictGet (LLMAnalyzer.analyze_code (some c9_text)) "raw_response" = none
    ∧ dictGet (LLMAnalyzer.analyze_code (some c9_text)) "improvements" = none := by
  refine ⟨?_, ?_, ?_, ?_, ?_⟩ <;> with_unfolding_all rfl

/-- C9 (amended): the three result states are distinguishable as claimed
provided the decoded mapping does not itself carry `raw_response`/`error`
keys (the code never strips or checks them), with an empty response text
classified as a call failure: a failed or empty call yields `error` and no
`raw_response`; an unparseable non-empty text yields `raw_response` and no
`error`; a decoded mapping without those keys yields neither. -/
theorem c9_result_states :
    (dictGet (LLMAnalyzer.analyze_code none) "error"
        = some (.str "LLM 분석 실패")
     ∧ dictGet (LLMAnalyzer.analyze_code none) "raw_response" = none
     ∧ LLMAnalyzer.analyze_code (some []) = LLMAnalyzer.analyze_code none)
    ∧ (∀ r : List Char, r ≠ [] → LLMAnalyzer.parse_json_response r = none →
        dictGet (LLMAnalyzer.analyze_code (some r)) "raw_response"
          = some (.str (String.mk (r.take 500)))
        ∧ dictGet (LLMAnalyzer.analyze_code (some r)) "error" = none)
    ∧ (∀ (r : List Char) (m : Dict),
        LLMAnalyzer.parse_json_response r = some (.obj m) →
        dictGet m "raw_response" = none → dictGet m "error" = none →
        dictGet (LLMAnalyzer.analyze_code (some r)) "raw_response" = none
        ∧ dictGet (LLMAnalyzer.analyze_code (some r)) "error" = none) := by
  refine ⟨⟨rfl, rfl, rfl⟩, ?_, ?_⟩
  · intro r hne hp
    have h0 : r.isEmpty = false := by
      cases r with
      | nil => exact absurd rfl hne
      | cons c cs => rfl
    rw [LLMAnalyzer.analyze_code, h0, hp]
    exact ⟨rfl, rfl⟩
  · intro r m hp hraw herr
    have hne : r ≠ [] := by
      intro hr
      subst hr
      simp [LLMAnalyzer.parse_json_response, strFind] at hp
    have h0 : r.isEmpty = false := by
      cases r with
      | nil => exact absurd rfl hne
      | cons c cs => rfl
    rw [LLMAnalyzer.analyze_code, h0, hp]
    exact ⟨hraw, herr⟩

/-- C9 (amended), instantiated: a fallback record for an unparseable text
and a normal record for a clean decoded mapping. -/
theorem c9_result_states_witness :
    (dictGet (LLMAnalyzer.analyze_code (some "oops".toList)) "raw_response"
        = some (.str (String.mk ("oops".toList.take 500)))
     ∧ dictGet (LLMAnalyzer.analyze_code (some "oops".toList)) "error" = none)
    ∧ (dictGet (LLMAnalyzer.analyze_code
          (some "\x7b\"overall_score\": 7\x7d".toList)) "raw_response" = none
       ∧ dictGet (LLMAnalyzer.analyze_code
          (some "\x7b\"overall_score\": 7\x7d".toList)) "error" = none) :=
  ⟨c9_result_states.2.1 _ (by simp) rfl,
   c9_result_states.2.2 _ [("overall_score", .num 7)]
     (by with_unfolding_all rfl) rfl rfl⟩

/-! ### C1 — ordering and truncation policy -/

mutual

theorem filesOfItem_ext (it : GitHubClient.TreeItem)
    (f : GitHubClient.RepoFile) (hf : f ∈ GitHubClient.filesOfItem it) :
    allowedExt f.name = true :=
  match it with
  | .file name path size => by
    rw [GitHubClient.filesOfItem] at hf
    split at hf
    · next hext =>
      rw [List.mem_singleton] at hf
      subst hf
      exact hext
    · simp at hf
  | .dir contents => filesOfTree_ext contents f hf

theorem filesOfTree_ext (items : List GitHubClient.TreeItem)
    (f : GitHubClient.RepoFile) (hf : f ∈ GitHubClient.filesOfTree items) :
    allowedExt f.name = true :=
  match items with
  | [] => by rw [GitHubClient.filesOfTree] at hf; simp at hf
  | it :: rest => by
    rw [GitHubClient.filesOfTree] at hf
    rcases List.mem_append.mp hf with h | h
    · exact filesOfItem_ext it f h
    · exact filesOfTree_ext rest f h

end

theorem mem_collect_repository {tree : List GitHubClient.TreeItem}
    {mf : Option Nat} {f : GitHubClient.RepoFile}
    (h : f ∈ CodeReviewAssistant.collect_repository tree mf) :
    f ∈ (GitHubClient.get_all_files tree).filter
      (fun g => g.size ≤ Config.MAX_FILE_SIZE) := by
  have hmem : f ∈ CodeReviewAssistant.sorted_valid_files tree := by
    rcases mf with _ | m
    · rw [CodeReviewAssistant.collect_repository] at h
      exact List.take_subset _ _ h
    · rw [CodeReviewAssistant.collect_repository] at h
      split at h <;> exact List.take_subset _ _ h
  rw [CodeReviewAssistant.sorted_valid_files] at hmem
  exact (List.perm_insertionSort _ _).mem_iff.mp hmem

/-- The remote tree of the C1 amended theorem's concrete instance: files
of sizes `[50, 10, 30, 90, 20]` (two of them inside a subdirectory). -/
def c1_tree : List GitHubClient.TreeItem :=
  [.file "a.py" "src/a.py" 50, .file "b.py" "src/b.py" 10,
   .dir [.file "c.py" "src/sub/c.py" 30, .file "d.py" "src/sub/d.py" 90],
   .file "e.py" "src/e.py" 20]

/-- The local walk of the C1 counterexample: five supported files with
sizes `[50, 10, 30, 90, 20]`, in walk order. -/
def c1_walk : List CodeReviewAssistant.LocalFile :=
  [⟨"a.py", "a.py", 50⟩, ⟨"b.py", "b.py", 10⟩, ⟨"c.py", "c.py", 30⟩,
   ⟨"d.py", "d.py", 90⟩, ⟨"e.py", "e.py", 20⟩]

/-- C1 counterexample: local-mode collection keeps walk order — with
sizes `[50, 10, 30, 90, 20]` the collected list is not sorted ascending
by size, contrary to the claimed all-modes policy. -/
theorem c1_counterexample :
    (CodeReviewAssistant.collect_local c1_walk).map (fun f => f.size)
      = [50, 10, 30, 90, 20]
    ∧ ¬ List.Sorted (· ≤ ·)
        ((CodeReviewAssistant.collect_local c1_walk).map (fun f => f.size)) := by
  constructor
  · decide
  · decide

/-- C1 (amended): only remote-tree mode sorts ascending by size and
truncates to the caller override (when non-zero, else
`MAX_FILES_PER_ANALYSIS`), so when the cap binds it keeps exactly the
smallest files in ascending order (e.g. sizes `[50, 10, 30, 90, 20]`
with cap `3` yield `[10, 20, 30]`); local mode truncates the filtered
list to `MAX_FILES_PER_ANALYSIS` in walk order without sorting; PR-mode
collection neither sorts nor truncates (the cap is applied only by the
orchestrator's batch limit). -/
theorem c1_ordering_policy :
    (∀ (tree : List GitHubClient.TreeItem) (mf : Option Nat),
      List.Sorted (· ≤ ·)
        ((CodeReviewAssistant.collect_repository tree mf).map (fun f => f.size)))
    ∧ (∀ (tree : List GitHubClient.TreeItem) (m : Nat),
        (CodeReviewAssistant.collect_repository tree (some m)).length
          ≤ if m = 0 then Config.MAX_FILES_PER_ANALYSIS else m)
    ∧ (∀ tree : List GitHubClient.TreeItem,
        (CodeReviewAssistant.collect_repository tree none).length
          ≤ Config.MAX_FILES_PER_ANALYSIS)
    ∧ (CodeReviewAssistant.collect_repository c1_tree (some 3)).map
        (fun f => f.size) = [10, 20, 30]
    ∧ (∀ walk : List CodeReviewAssistant.LocalFile,
        (CodeReviewAssistant.collect_local walk).length
          ≤ Config.MAX_FILES_PER_ANALYSIS)
    ∧ (∀ walk : List CodeReviewAssistant.LocalFile,
        List.Sublist (CodeReviewAssistant.collect_local walk) walk)
    ∧ (CodeReviewAssistant.pr_files_with_content
        (List.replicate 21 ⟨"modified", "a.py", 1, 1, 0⟩)
        (fun _ => some ['x'])).length = 21 := by
  have hsorted : ∀ tree : List GitHubClient.TreeItem,
      List.Sorted CodeReviewAssistant.bySize
        (CodeReviewAssistant.sorted_valid_files tree) := by
    intro tree
    rw [CodeReviewAssistant.sorted_valid_files]
    exact List.sorted_insertionSort _ _
  have htakeSorted : ∀ (tree : List GitHubClient.TreeItem) (k : Nat),
      List.Sorted (· ≤ ·)
        (((CodeReviewAssistant.sorted_valid_files tree).take k).map
          (fun f => f.size)) := by
    intro tree k
    exact ((hsorted tree).sublist (List.take_sublist k _)).map _
      (fun a b hab => hab)
  refine ⟨?_, ?_, ?_, by decide, ?_, ?_, by decide⟩
  · intro tree mf
    rcases mf with _ | m
    · rw [CodeReviewAssistant.collect_repository]
      exact htakeSorted tree _
    · rw [CodeReviewAssistant.collect_repository]
      split <;> exact htakeSorted tree _
  · intro tree m
    rw [CodeReviewAssistant.collect_repository]
    split <;> exact List.length_take_le _ _
  · intro tree
    rw [CodeReviewAssistant.collect_repository]
    exact List.length_take_le _ _
  · intro walk
    rw [CodeReviewAssistant.collect_local]
    exact List.length_take_le _ _
  · intro walk
    rw [CodeReviewAssistant.collect_local]
    exact (List.take_sublist _ _).trans (List.filter_sublist _)

/-! ### C7 — score-range invariant -/

/-- The data-model invariant `0 ≤ overall_score ≤ 10`, as a check on one
result record: the stored score, when present as a number, lies in
`[0, 10]`. -/
def scoreWithinRange (d : Dict) : Bool :=
  match dictGet d "overall_score" with
  | some (JsonVal.num q) => decide (0 ≤ q ∧ q ≤ 10)
  | _ => true

theorem scoreWithinRange_filePath (d : Dict) (p : JsonVal) :
    scoreWithinRange (dictSet d "file_path" p) = scoreWithinRange d := by
  rw [scoreWithinRange, scoreWithinRange,
    dictGet_dictSet_ne d "file_path" "overall_score" p (by decide)]

/-- The response used by the C7 counterexample: well-formed JSON whose
score is out of the `[0, 10]` range. -/
def c7_respond : LLMAnalyzer.FileInfo → Option (List Char) := fun _ =>
  some "\x7b\"overall_score\": 99, \"issues\": [], \"improvements\": [], \"positive_points\": []\x7d".toList

/-- The single-file batch of the C7 counterexample. -/
def c7_files : List LLMAnalyzer.FileInfo := [⟨"a.py", "x = 1".toList⟩]

/-- C7 counterexample: the parser performs no range validation, so a
decoded score of `99` reaches the final report unchanged, violating
`0 ≤ overall_score ≤ 10`. -/
theorem c7_counterexample :
    (LLMAnalyzer.analyze_multiple_files c7_respond c7_files).map
        (fun rep => rep.files.map (fun d => dictGet d "overall_score"))
      = some [some (JsonVal.num 99)]
    ∧ ¬ ((99 : ℚ) ≤ 10) := by
  constructor
  · with_unfolding_all rfl
  · norm_num

/-- C7 (amended): failure and fallback records always satisfy
`0 ≤ overall_score ≤ 10` (their scores are `0` and `5.0`); a normal
record carries the decoded score unvalidated, so the invariant holds for
a report exactly when it holds for every per-file analysis outcome. -/
theorem c7_score_range :
    scoreWithinRange LLMAnalyzer.create_empty_result = true
    ∧ (∀ r : List Char,
        scoreWithinRange (LLMAnalyzer.create_fallback_result r) = true)
    ∧ (∀ (respond : LLMAnalyzer.FileInfo → Option (List Char))
        (files : List LLMAnalyzer.FileInfo)
        (report : LLMAnalyzer.FinalReport),
        LLMAnalyzer.analyze_multiple_files respond files = some report →
        (∀ fi ∈ files,
          scoreWithinRange (LLMAnalyzer.analyze_code (respond fi)) = true) →
        ∀ d ∈ report.files, scoreWithinRange d = true) := by
  refine ⟨rfl, fun r => rfl, ?_⟩
  intro respond files report h hin d hd
  obtain ⟨t, issues, hrb, -, -, -, -⟩ := LLMAnalyzer.analyze_multiple_files_eq h
  obtain ⟨hfiles, -⟩ := LLMAnalyzer.runBatch_eq hrb
  rw [hfiles] at hd
  obtain ⟨fi, hfi, rfl⟩ := List.mem_map.mp hd
  have hfi' : fi ∈ files :=
    List.take_subset _ _ (List.mem_filter.mp hfi).1
  rw [scoreWithinRange_filePath]
  exact hin fi hfi'

/-- The in-range run used by the C7 witness. -/
def c7w_respond : LLMAnalyzer.FileInfo → Option (List Char) := fun _ =>
  some "\x7b\"overall_score\": 7, \"issues\": []\x7d".toList

/-- The single-file batch of the C7 witness. -/
def c7w_files : List LLMAnalyzer.FileInfo := [⟨"a.py", "x = 1".toList⟩]

/-- The result record produced for the C7 witness run. -/
def c7w_result : Dict :=
  [("overall_score", .num 7), ("issues", .arr []), ("file_path", .str "a.py")]

/-- The report produced for the C7 witness run. -/
def c7w_report : LLMAnalyzer.FinalReport :=
  { summary := { total_files := 1, average_score := 7, total_issues := 0 },
    files := [c7w_result] }

/-- C7 (amended), instantiated at an in-range run. -/
theorem c7_score_range_witness : scoreWithinRange c7w_result = true :=
  c7_score_range.2.2 c7w_respond c7w_files c7w_report
    (by with_unfolding_all rfl)
    (by
      intro fi hfi
      simp only [c7w_files, List.mem_singleton] at hfi
      subst hfi
      with_unfolding_all rfl)
    c7w_result (by simp [c7w_report])

/-! ### C10 — missing-score default in the aggregate -/

/-- C10: the reported average is the rounded mean of the per-record
contribution `get('overall_score', 5.0)` — the stored score when present,
else the default `5.0` — over all results (`0` for an empty batch), and a
record lacking the key contributes exactly `5`. -/
theorem c10_default_score_mean
    (respond : LLMAnalyzer.FileInfo → Option (List Char))
    (files : List LLMAnalyzer.FileInfo) (report : LLMAnalyzer.FinalReport)
    (h : LLMAnalyzer.analyze_multiple_files respond files = some report) :
    report.summary.average_score
      = pyRound1 (if report.files.isEmpty then 0
          else (report.files.map LLMAnalyzer.scoreOrDefault).sum
                / (report.files.length : ℚ))
    ∧ (∀ d ∈ report.files, dictGet d "overall_score" = none →
        LLMAnalyzer.scoreOrDefault d = 5) := by
  obtain ⟨t, issues, hrb, -, -, havg, -⟩ :=
    LLMAnalyzer.analyze_multiple_files_eq h
  obtain ⟨-, hsum⟩ := LLMAnalyzer.runBatch_eq hrb
  constructor
  · rw [havg, hsum]
  · intro d hd hnone
    rw [LLMAnalyzer.scoreOrDefault, hnone]

/-- The C10 witness run: one response with score `8`, one decoding to the
empty object `{}` (no `overall_score` key). -/
def c10w_respond : LLMAnalyzer.FileInfo → Option (List Char) := fun fi =>
  if fi.path = "a.py" then
    some "\x7b\"overall_score\": 8, \"issues\": [], \"improvements\": [], \"positive_points\": []\x7d".toList
  else some "\x7b\x7d".toList

/-- The two-file batch of the C10 witness. -/
def c10w_files : List LLMAnalyzer.FileInfo :=
  [⟨"a.py", "x = 1".toList⟩, ⟨"b.py", "y = 2".toList⟩]

/-- The stored record for the keyless response: only the orchestrator's
`file_path` — no `overall_score` is added to the record itself. -/
def c10w_missing : Dict := [("file_path", .str "b.py")]

/-- The report of the C10 witness run: average `(8 + 5)/2 = 6.5`, although
the only score present in the records is `8`. -/
def c10w_report : LLMAnalyzer.FinalReport :=
  { summary := { total_files := 2, average_score := 13/2, total_issues := 0 },
    files :=
      [[("overall_score", .num 8), ("issues", .arr []),
        ("improvements", .arr []), ("positive_points", .arr []),
        ("file_path", .str "a.py")], c10w_missing] }

/-- C10, instantiated: the keyless record contributes the default `5`,
is stored without the key, and the reported average `6.5` differs from
the sole stored score `8`. -/
theorem c10_default_score_mean_witness :
    c10w_report.summary.average_score
      = pyRound1 (if c10w_report.files.isEmpty then 0
          else (c10w_report.files.map LLMAnalyzer.scoreOrDefault).sum
                / (c10w_report.files.length : ℚ))
    ∧ LLMAnalyzer.scoreOrDefault c10w_missing = 5
    ∧ dictGet c10w_missing "overall_score" = none
    ∧ c10w_report.summary.average_score = 13/2
    ∧ ¬ ((13 : ℚ)/2 = 8) := by
  refine ⟨(c10_default_score_mean c10w_respond c10w_files c10w_report
      (by with_unfolding_all rfl)).1,
    (c10_default_score_mean c10w_respond c10w_files c10w_report
      (by with_unfolding_all rfl)).2 c10w_missing
      (by simp [c10w_report]) rfl,
    rfl, rfl, by norm_num⟩

/-! ### C2 — average over all results -/

/-- True when the record stores a numeric `overall_score`. -/
def hasNumScore (d : Dict) : Bool :=
  match dictGet d "overall_score" with
  | some (JsonVal.num _) => true
  | _ => false

/-- The stored numeric score of a record (`0` when absent; only used
under `hasNumScore`). -/
def scoreOf (d : Dict) : ℚ :=
  match dictGet d "overall_score" with
  | some (JsonVal.num q) => q
  | _ => 0

theorem scoreOrDefault_eq_scoreOf {d : Dict} (h : hasNumScore d = true) :
    LLMAnalyzer.scoreOrDefault d = scoreOf d := by
  rw [hasNumScore] at h
  rw [LLMAnalyzer.scoreOrDefault, scoreOf]
  split at h
  · rename_i q hq
    rw [hq]
  · cases h

/-- C2: when every produced record stores a numeric score (failure records
store `0`, fallback records `5.0`), the reported `average_score` is the
arithmetic mean of those scores over all results — failures included —
rounded to one decimal, and `0` for an empty batch. -/
theorem c2_average_is_mean
    (respond : LLMAnalyzer.FileInfo → Option (List Char))
    (files : List LLMAnalyzer.FileInfo) (report : LLMAnalyzer.FinalReport)
    (h : LLMAnalyzer.analyze_multiple_files respond files = some report)
    (hs : ∀ d ∈ report.files, hasNumScore d = true) :
    (report.files = [] → report.summary.average_score = 0)
    ∧ (report.files ≠ [] →
        report.summary.average_score
          = pyRound1 ((report.files.map scoreOf).sum
              / (report.files.length : ℚ))) := by
  obtain ⟨t, issues, hrb, -, -, havg, -⟩ :=
    LLMAnalyzer.analyze_multiple_files_eq h
  obtain ⟨-, hsum⟩ := LLMAnalyzer.runBatch_eq hrb
  constructor
  · intro hemp
    rw [havg, hemp]
    simp [pyRound1_zero]
  · intro hne
    have hmap : report.files.map LLMAnalyzer.scoreOrDefault
        = report.files.map scoreOf :=
      List.map_congr_left (fun d hd => scoreOrDefault_eq_scoreOf (hs d hd))
    have hie : report.files.isEmpty = false := by
      cases hc : report.files with
      | nil => exact absurd hc hne
      | cons a l => rfl
    rw [havg, hsum, hmap, hie]
    simp

/-- The C2 witness run: the spec's aggregation example — scores
`[8, 6, 0]`, the last a failure record, issue counts `[1, 0, 0]`. -/
def c2w_respond : LLMAnalyzer.FileInfo → Option (List Char) := fun fi =>
  if fi.path = "a.py" then
    some "\x7b\"overall_score\": 8, \"issues\": [\x7b\"type\": \"bug\"\x7d], \"improvements\": [], \"positive_points\": []\x7d".toList
  else if fi.path = "b.py" then
    some "\x7b\"overall_score\": 6, \"issues\": [], \"improvements\": [], \"positive_points\": []\x7d".toList
  else none

/-- The three-file batch of the C2 witness. -/
def c2w_files : List LLMAnalyzer.FileInfo :=
  [⟨"a.py", "x = 1".toList⟩, ⟨"b.py", "y = 2".toList⟩, ⟨"c.py", "z = 3".toList⟩]

/-- The report of the C2 witness run: `average_score = 4.7`,
`total_issues = 1`. -/
def c2w_report : LLMAnalyzer.FinalReport :=
  { summary :=
      { total_files := 3, average_score := 47/10, total_issues := 1 },
    files :=
      [[("overall_score", .num 8),
        ("issues", .arr [.obj [("type", .str "bug")]]),
        ("improvements", .arr []), ("positive_points", .arr []),
        ("file_path", .str "a.py")],
       [("overall_score", .num 6), ("issues", .arr []),
        ("improvements", .arr []), ("positive_points", .arr []),
        ("file_path", .str "b.py")],
       [("overall_score", .num 0), ("issues", .arr []),
        ("improvements", .arr [.str "분석 실패"]), ("positive_points", .arr []),
        ("error", .str "LLM 분석 실패"), ("file_path", .str "c.py")]] }

/-- C2, instantiated at the spec's example: scores `[8, 6, 0]` (failure
included at `0`) average to `14/3`, reported as `4.7`. -/
theorem c2_average_is_mean_witness :
    c2w_report.summary.average_score
      = pyRound1 ((c2w_report.files.map scoreOf).sum
          / (c2w_report.files.length : ℚ))
    ∧ c2w_report.summary.average_score = 47/10
    ∧ c2w_report.summary.total_issues = 1 := by
  refine ⟨(c2_average_is_mean c2w_respond c2w_files c2w_report
      (by with_unfolding_all rfl) (by decide)).2 (by simp [c2w_report]),
    rfl, rfl⟩

/-! ### C8 — one result per record -/

/-- C8 counterexample: a capped one-record sequence whose record has empty
content yields zero results, not one — `total_files` is `0`, not `1`. -/
theorem c8_counterexample :
    (LLMAnalyzer.analyze_multiple_files (fun _ => none)
        [(⟨"a.py", []⟩ : LLMAnalyzer.FileInfo)]).map
        (fun rep => rep.summary.total_files) = some 0
    ∧ [(⟨"a.py", []⟩ : LLMAnalyzer.FileInfo)].length = 1
    ∧ (0 : Nat) ≠ 1 := by
  refine ⟨by with_unfolding_all rfl, rfl, by simp⟩

/-- C8 (amended): the orchestrator produces exactly one result per input
record whose content is non-empty (within the first
`MAX_FILES_PER_ANALYSIS` records); records with empty content are skipped.
`total_files` counts the produced results, so for a capped sequence of
records with non-empty content it equals the number of input records. -/
theorem c8_result_count
    (respond : LLMAnalyzer.FileInfo → Option (List Char))
    (files : List LLMAnalyzer.FileInfo) (report : LLMAnalyzer.FinalReport)
    (h : LLMAnalyzer.analyze_multiple_files respond files = some report) :
    report.summary.total_files = report.files.length
    ∧ report.files.length
        = ((files.take Config.MAX_FILES_PER_ANALYSIS).filter
            (fun fi => !fi.content.isEmpty)).length
    ∧ (files.length ≤ Config.MAX_FILES_PER_ANALYSIS →
        (∀ fi ∈ files, fi.content ≠ []) →
        report.files.length = files.length) := by
  obtain ⟨t, issues, hrb, -, htf, -, -⟩ :=
    LLMAnalyzer.analyze_multiple_files_eq h
  obtain ⟨hfiles, -⟩ := LLMAnalyzer.runBatch_eq hrb
  refine ⟨htf, by rw [hfiles, List.length_map], ?_⟩
  intro hlen hne
  have hfe : files.filter (fun fi => !fi.content.isEmpty) = files :=
    List.filter_eq_self.mpr (fun fi hfi => by simpa using hne fi hfi)
  rw [hfiles, List.length_map, List.take_of_length_le hlen, hfe]

/-- The one-file batch of the C8 witness (non-empty content, failing
call). -/
def c8w_files : List LLMAnalyzer.FileInfo := [⟨"a.py", "x = 1".toList⟩]

/-- The report of the C8 witness run: one failure record for the one
input record. -/
def c8w_report : LLMAnalyzer.FinalReport :=
  { summary := { total_files := 1, average_score := 0, total_issues := 0 },
    files := [dictSet LLMAnalyzer.create_empty_result "file_path"
                (.str "a.py")] }

/-- C8 (amended), instantiated: one result for one non-empty record even
though its call failed. -/
theorem c8_result_count_witness :
    c8w_report.files.length = c8w_files.length :=
  (c8_result_count (fun _ => none) c8w_files c8w_report
      (by with_unfolding_all rfl)).2.2 (by decide) (by decide)


/-! ### C6 — filter correctness across modes -/

/-- The oversized content of the C6 counterexample: one byte more than
`MAX_FILE_SIZE`. -/
def c6_big : List Char := List.replicate (Config.MAX_FILE_SIZE + 1) 'a'

/-- C6 counterexample: PR mode applies no size check — a changed file
whose content exceeds `MAX_FILE_SIZE` is still passed onward. -/
theorem c6_counterexample :
    (CodeReviewAssistant.pr_files_with_content
        [⟨"modified", "big.py", 1, 1, 0⟩] (fun _ => some c6_big)).map
        (fun r => (r.path, r.content))
      = [("big.py", c6_big)]
    ∧ c6_big.length = Config.MAX_FILE_SIZE + 1
    ∧ ¬ (Config.MAX_FILE_SIZE + 1 ≤ Config.MAX_FILE_SIZE) := by
  refine ⟨rfl, by simp [c6_big], by simp⟩

/-- C6 (amended): remote-tree and local collection keep exactly the
descriptors with an allow-listed extension and `size ≤ MAX_FILE_SIZE`
(and the records fetched from them keep that size bound); PR mode keeps
records with an allow-listed name coming from a non-`"removed"` entry,
but enforces no size bound. -/
theorem c6_filter_policy :
    (∀ (tree : List GitHubClient.TreeItem) (mf : Option Nat)
        (f : GitHubClient.RepoFile),
        f ∈ CodeReviewAssistant.collect_repository tree mf →
        allowedExt f.name = true ∧ f.size ≤ Config.MAX_FILE_SIZE)
    ∧ (∀ (tree : List GitHubClient.TreeItem) (mf : Option Nat)
        (contentOf : String → Option (List Char))
        (rec : CodeReviewAssistant.RemoteRecord),
        rec ∈ CodeReviewAssistant.repository_files_with_content tree mf contentOf →
        rec.size ≤ Config.MAX_FILE_SIZE)
    ∧ (∀ (walk : List CodeReviewAssistant.LocalFile)
        (f : CodeReviewAssistant.LocalFile),
        f ∈ CodeReviewAssistant.collect_local walk →
        allowedExt f.name = true ∧ f.size ≤ Config.MAX_FILE_SIZE)
    ∧ (∀ (walk : List CodeReviewAssistant.LocalFile)
        (contentOf : String → Option (List Char))
        (rec : CodeReviewAssistant.LocalRecord),
        rec ∈ CodeReviewAssistant.local_files_with_content walk contentOf →
        rec.size ≤ Config.MAX_FILE_SIZE)
    ∧ (∀ (prFiles : List CodeReviewAssistant.PRChangedFile)
        (contentOf : String → Option (List Char))
        (rec : CodeReviewAssistant.PRRecord),
        rec ∈ CodeReviewAssistant.pr_files_with_content prFiles contentOf →
        allowedExt rec.path = true
        ∧ ∃ e ∈ prFiles, e.status ≠ "removed" ∧ e.filename = rec.path) := by
  have hlocal : ∀ (walk : List CodeReviewAssistant.LocalFile)
      (f : CodeReviewAssistant.LocalFile),
      f ∈ CodeReviewAssistant.collect_local walk →
      allowedExt f.name = true ∧ f.size ≤ Config.MAX_FILE_SIZE := by
    intro walk f hf
    rw [CodeReviewAssistant.collect_local] at hf
    have hf2 := List.take_subset _ _ hf
    have := (List.mem_filter.mp hf2).2
    rw [Bool.and_eq_true] at this
    exact ⟨this.1, by simpa using this.2⟩
  have hremote : ∀ (tree : List GitHubClient.TreeItem) (mf : Option Nat)
      (f : GitHubClient.RepoFile),
      f ∈ CodeReviewAssistant.collect_repository tree mf →
      allowedExt f.name = true ∧ f.size ≤ Config.MAX_FILE_SIZE := by
    intro tree mf f hf
    have hf2 := mem_collect_repository hf
    have hm := List.mem_filter.mp hf2
    exact ⟨filesOfTree_ext tree f hm.1, by simpa using hm.2⟩
  refine ⟨hremote, ?_, hlocal, ?_, ?_⟩
  · intro tree mf contentOf rec hrec
    rw [CodeReviewAssistant.repository_files_with_content] at hrec
    obtain ⟨f, hf, hsome⟩ := List.mem_filterMap.mp hrec
    have hsz := (hremote tree mf f hf).2
    split at hsome
    · next c hc =>
      split at hsome
      · simp at hsome
      · cases hsome
        exact hsz
    · simp at hsome
  · intro walk contentOf rec hrec
    rw [CodeReviewAssistant.local_files_with_content] at hrec
    obtain ⟨f, hf, hsome⟩ := List.mem_filterMap.mp hrec
    have hsz := (hlocal walk f hf).2
    rw [Option.map_eq_some'] at hsome
    obtain ⟨c, hc, rfl⟩ := hsome
    exact hsz
  · intro prFiles contentOf rec hrec
    rw [CodeReviewAssistant.pr_files_with_content] at hrec
    obtain ⟨e, he, hsome⟩ := List.mem_filterMap.mp hrec
    split at hsome
    · simp at hsome
    · next hstat =>
      split at hsome
      · simp at hsome
      · next hext =>
        split at hsome
        · next c hc =>
          split at hsome
          · simp at hsome
          · cases hsome
            refine ⟨by simpa using hext, e, he, hstat, rfl⟩
        · simp at hsome

/-- The fixtures of the C6 witness: one collected file per mode. -/
def c6w_tree : List GitHubClient.TreeItem := [.file "a.py" "a.py" 10]

/-- The local walk of the C6 witness. -/
def c6w_walk : List CodeReviewAssistant.LocalFile := [⟨"b.py", "b.py", 10⟩]

/-- The PR entry list of the C6 witness. -/
def c6w_pr : List CodeReviewAssistant.PRChangedFile :=
  [⟨"modified", "c.py", 1, 1, 0⟩]

/-- C6 (amended), instantiated at one collected descriptor/record per
mode. -/
theorem c6_filter_policy_witness :
    (allowedExt "a.py" = true ∧ (10 : Nat) ≤ Config.MAX_FILE_SIZE)
    ∧ (allowedExt "b.py" = true ∧ (10 : Nat) ≤ Config.MAX_FILE_SIZE)
    ∧ (allowedExt "c.py" = true
        ∧ ∃ e ∈ c6w_pr, e.status ≠ "removed" ∧ e.filename = "c.py") :=
  ⟨c6_filter_policy.1 c6w_tree none ⟨"a.py", "a.py", 10⟩ (by decide),
   c6_filter_policy.2.2.1 c6w_walk ⟨"b.py", "b.py", 10⟩ (by decide),
   c6_filter_policy.2.2.2.2 c6w_pr (fun _ => some ['x'])
     ⟨"c.py", ['x'], 1, 1, 0⟩ (by decide)⟩


end CodeReview
